import Mathlib

/-!
# A shallow embedding of the CHIP-8 emulator core

This file embeds the data model and the fetch/decode/execute engine of the
CHIP-8 emulator (sources: `src/system.rs`, `src/program.rs`, `src/utils.rs`)
and proves properties of the embedded definitions.

Modelling conventions:
* Machine integers (`u8`, `u16`, `u128`) become `Nat`; a Rust `as u8` /
  `as u16` cast is `% 256` / `% 65536` at the points where the operand can
  exceed the target width.
* Fallible operations (a Rust panic: an out-of-range slice store, `unwrap` on
  an empty stack, the catch-all `panic!` arm of the instruction dispatch)
  return `Option`, with `none` for the panic.
* Ambient effects become explicit parameters: `SystemTime::now()` is a `now`
  argument, the `user32` key poll is a `Nat → Bool` snapshot argument, and
  `thread_rng` is an oracle `rng : Nat → Nat` stepped by an index `rngIdx`.
* Rust `for` loops become structurally recursive helpers with an explicit
  remaining-iteration count, so that everything reduces by `decide` / `rfl`.
-/

namespace Chip8

/-- `Memory` (system.rs): 4096 bytes of main memory, stored as a total
function from addresses to byte values. -/
structure Memory where
  mem : Nat → Nat

/-- `Memory::get`: the byte at `address`; an address at or beyond 4096
(`self.memory.len()`) returns 0. -/
def Memory.get (m : Memory) (address : Nat) : Nat :=
  if address < 4096 then m.mem address else 0

/-- `Memory::store`: writes `value` at `address`.  The source indexes the
4096-byte array without a bounds check, so an address at or beyond 4096
panics; that is modelled as `none`. -/
def Memory.store (m : Memory) (address value : Nat) : Option Memory :=
  if address < 4096 then some ⟨fun a => if a = address then value else m.mem a⟩
  else none

/-- `Memory::flip_pixel`: toggles the display bit for coordinate `(x, y)` in
the display sub-range and reports whether the pixel was previously set. -/
def Memory.flip_pixel (m : Memory) (x y : Nat) : Option (Memory × Bool) :=
  let idx := 0xF00 + (x + y * 64) / 8
  let value := 1 <<< (7 - x % 8)
  let current := m.get idx
  let reset := decide (0 < current &&& value)
  match m.store idx (current ^^^ value) with
  | none => none
  | some m2 => some (m2, reset)

/-- Loop body of `Memory::clear_display` (`for i in 0xF00..=0xFFF`), with an
explicit count of remaining iterations. -/
def Memory.clearAux (i rem : Nat) (m : Memory) : Option Memory :=
  match rem with
  | 0 => some m
  | r + 1 =>
    match m.store i 0 with
    | none => none
    | some m2 => Memory.clearAux (i + 1) r m2

/-- `Memory::clear_display`: zeroes the display sub-range 0xF00–0xFFF. -/
def Memory.clear_display (m : Memory) : Option Memory :=
  Memory.clearAux 0xF00 0x100 m

/-- Derived view used only in statements: the display bit a call
`flip_pixel x y` toggles, read back from the display sub-range. -/
def Memory.pixel (m : Memory) (x y : Nat) : Bool :=
  (m.get (0xF00 + (x + y * 64) / 8)).testBit (7 - x % 8)

/-- `Registers` (system.rs): sixteen `V` registers as a total function plus
the 12-bit index register `I`. -/
structure Registers where
  v : Nat → Nat
  i : Nat

/-- `Registers::get`: the `V` register at `idx`; an index at or beyond 16
returns 0. -/
def Registers.get (r : Registers) (idx : Nat) : Nat :=
  if idx < 16 then r.v idx else 0

/-- `Registers::set`: writes a `V` register.  The source indexes the
16-element array without a bounds check, so an index at or beyond 16 panics;
modelled as `none`. -/
def Registers.set (r : Registers) (idx val : Nat) : Option Registers :=
  if idx < 16 then some { r with v := fun j => if j = idx then val else r.v j }
  else none

/-- `Registers::set_i`: writes the `I` register. -/
def Registers.set_i (r : Registers) (val : Nat) : Registers :=
  { r with i := val }

/-- `Registers::set_vF`: writes register slot 15 unconditionally. -/
def Registers.set_vF (r : Registers) (value : Nat) : Registers :=
  { r with v := fun j => if j = 15 then value else r.v j }

/-- `Stack` (system.rs): the call stack.  The source pushes/pops at the back
of a `Vec`; the list head models the top of the stack. -/
structure Stack where
  stack : List Nat

/-- `Stack::push`. -/
def Stack.push (s : Stack) (val : Nat) : Stack :=
  ⟨val :: s.stack⟩

/-- `Stack::pop`: the top value and the remaining stack, or `none` when
empty. -/
def Stack.pop (s : Stack) : Option (Nat × Stack) :=
  match s.stack with
  | [] => none
  | a :: rest => some (a, ⟨rest⟩)

/-- `Timer` (system.rs): a byte value plus the millisecond timestamp of the
last clock reset. -/
structure Timer where
  value : Nat
  last_update : Nat

/-- `Timer::tick`: decrements the value when it is positive. -/
def Timer.tick (t : Timer) : Timer :=
  if 0 < t.value then { t with value := t.value - 1 } else t

/-- `Timer::set`: writes the value (and nothing else). -/
def Timer.set (t : Timer) (value : Nat) : Timer :=
  { t with value := value }

/-- `Timer::get`. -/
def Timer.get (t : Timer) : Nat :=
  t.value

/-- `Timer::update`: `SystemTime::now()` becomes the argument `now` (the
wall clock is monotone, so the source's `u128` subtraction never
underflows).  When strictly more than 16 ms have elapsed, tick and reset the
clock. -/
def Timer.update (t : Timer) (now : Nat) : Timer :=
  let dt := now - t.last_update
  if 16 < dt then { t.tick with last_update := now } else t

/-- `Keyboad` (sic, system.rs): the 16 key states and the most recently
pressed key (16 when none). -/
structure Keyboad where
  keys : Nat → Bool
  latest : Nat

/-- `Keyboad::get`: a key index at or beyond 16 reads as not pressed. -/
def Keyboad.get (k : Keyboad) (key : Nat) : Bool :=
  if key < 16 then k.keys key else false

/-- Loop body of `Keyboad::update` over key indices `0..16`; `ext` is the
polled pressed-state snapshot (the `GetAsyncKeyState` result per key). -/
def Keyboad.updateAux (ext : Nat → Bool) (idx rem : Nat) (k : Keyboad) : Keyboad :=
  match rem with
  | 0 => k
  | r + 1 =>
    let k2 : Keyboad :=
      if ext idx then ⟨fun j => if j = idx then true else k.keys j, idx⟩
      else ⟨fun j => if j = idx then false else k.keys j, k.latest⟩
    Keyboad.updateAux ext (idx + 1) r k2

/-- `Keyboad::update`: `latest` is first reset to 16, then every key state
is overwritten from the snapshot, recording the last pressed index seen. -/
def Keyboad.update (k : Keyboad) (ext : Nat → Bool) : Keyboad :=
  Keyboad.updateAux ext 0 16 ⟨k.keys, 16⟩

/-- `utils::big_endian_4_2`: two nibbles to a byte. -/
def big_endian_4_2 (n1 n2 : Nat) : Nat :=
  0x10 * n1 + n2

/-- `utils::big_endian_4_3`: three nibbles to a 12-bit value. -/
def big_endian_4_3 (n1 n2 n3 : Nat) : Nat :=
  0x100 * n1 + 0x10 * n2 + n3

/-- `utils::big_endian_8_2`: two bytes to a 16-bit word. -/
def big_endian_8_2 (n1 n2 : Nat) : Nat :=
  0x100 * n1 + n2

/-- `Instruction` (program.rs): the four nibbles of one instruction word. -/
structure Instruction where
  n0 : Nat
  n1 : Nat
  n2 : Nat
  n3 : Nat

/-- `impl From<u16> for Instruction`: mask-and-shift decoding of the four
nibbles. -/
def Instruction.fromWord (value : Nat) : Instruction :=
  ⟨(value &&& 0xF000) >>> 12, (value &&& 0x0F00) >>> 8,
   (value &&& 0x00F0) >>> 4, value &&& 0x000F⟩

/-- `System` (system.rs): the whole machine state.  `rng`/`rngIdx` are the
oracle for `thread_rng` (one sample per use of the `C x NN` instruction). -/
structure System where
  memory : Memory
  registers : Registers
  stack : Stack
  delay_timer : Timer
  sound_timer : Timer
  keyboard : Keyboad
  rng : Nat → Nat
  rngIdx : Nat
  pc : Nat
  screen_width : Nat
  screen_height : Nat
  loop_frequency : Nat

/-- `System::increment_pc` (`self.pc += 2`; the program counter never
reaches the top of the `u16` range because fetching from an address at or
beyond 4096 yields the zero word and halts the loop first). -/
def System.increment_pc (sys : System) : System :=
  { sys with pc := sys.pc + 2 }

/-- Inner loop of the `D x y n` arm (`for j in 0..8`), threading the memory
and the running flag value.  The flag accumulator starts at the 0 written by
`set_vF(0)` and becomes 1 on a collision, which is exactly the sequence of
`set_vF` writes the source performs (the loop reads no `V` register, so the
writes are observationally a single final one). -/
def drawCols (sb x_pos y sw : Nat) (j rem : Nat) (m : Memory) (vf : Nat) :
    Option (Memory × Nat) :=
  match rem with
  | 0 => some (m, vf)
  | r + 1 =>
    if sw ≤ x_pos + j then some (m, vf)
    else if sb &&& (1 <<< (7 - j)) = 0 then drawCols sb x_pos y sw (j + 1) r m vf
    else
      match m.flip_pixel (x_pos + j) y with
      | none => none
      | some (m2, reset) =>
        drawCols sb x_pos y sw (j + 1) r m2 (if reset then 1 else vf)

/-- Outer loop of the `D x y n` arm (`for i in 0..n`); the sprite byte of
each row is read from the current memory at `I + i`, as in the source. -/
def drawRows (x_pos y_pos sw sh iReg : Nat) (i rem : Nat) (m : Memory) (vf : Nat) :
    Option (Memory × Nat) :=
  match rem with
  | 0 => some (m, vf)
  | r + 1 =>
    if sh ≤ y_pos + i then some (m, vf)
    else
      let sb := m.get (iReg + i)
      match drawCols sb x_pos (y_pos + i) sw 0 8 m vf with
      | none => none
      | some (m2, vf2) => drawRows x_pos y_pos sw sh iReg (i + 1) r m2 vf2

/-- Loop of the `F x 5 5` arm (`for i in 0..=x`): store `V0..Vx` at
`I, I+1, ...`. -/
def storeRegsRange (r : Registers) (i rem : Nat) (m : Memory) : Option Memory :=
  match rem with
  | 0 => some m
  | k + 1 =>
    match m.store (r.i + i) (r.get i) with
    | none => none
    | some m2 => storeRegsRange r (i + 1) k m2

/-- Loop of the `F x 6 5` arm (`for i in 0..=x`): load `V0..Vx` from
`I, I+1, ...` (`set` never changes `I`, so reading `r.i` each step matches
the source). -/
def loadRegsRange (m : Memory) (i rem : Nat) (r : Registers) : Option Registers :=
  match rem with
  | 0 => some r
  | k + 1 =>
    match r.set i (m.get (r.i + i)) with
    | none => none
    | some r2 => loadRegsRange m (i + 1) k r2

/-- `Instruction::execute` (program.rs): the dispatch core.  Arms appear in
source order; the final catch-all `panic!` is `none`. -/
def Instruction.execute (ins : Instruction) (sys : System) : Option System :=
  match ins with
  | ⟨0, 0, 0xE, 0x0⟩ =>
    match sys.memory.clear_display with
    | none => none
    | some m => some { sys with memory := m }
  | ⟨0, 0, 0xE, 0xE⟩ =>
    match sys.stack.pop with
    | none => none
    | some (a, st) => some { sys with pc := a, stack := st }
  | ⟨1, n1, n2, n3⟩ => some { sys with pc := big_endian_4_3 n1 n2 n3 }
  | ⟨2, n1, n2, n3⟩ =>
    some { sys with stack := sys.stack.push sys.pc, pc := big_endian_4_3 n1 n2 n3 }
  | ⟨0, _, _, _⟩ => some sys
  | ⟨3, x, n1, n2⟩ =>
    if big_endian_4_2 n1 n2 = sys.registers.get x then some sys.increment_pc
    else some sys
  | ⟨4, x, n1, n2⟩ =>
    if big_endian_4_2 n1 n2 ≠ sys.registers.get x then some sys.increment_pc
    else some sys
  | ⟨5, x, y, 0⟩ =>
    if sys.registers.get x = sys.registers.get y then some sys.increment_pc
    else some sys
  | ⟨6, x, n1, n2⟩ =>
    match sys.registers.set x (big_endian_4_2 n1 n2) with
    | none => none
    | some r => some { sys with registers := r }
  | ⟨7, x, n1, n2⟩ =>
    match sys.registers.set x ((big_endian_4_2 n1 n2 + sys.registers.get x) % 256) with
    | none => none
    | some r => some { sys with registers := r }
  | ⟨8, x, y, 0⟩ =>
    match sys.registers.set x (sys.registers.get y) with
    | none => none
    | some r => some { sys with registers := r }
  | ⟨8, x, y, 1⟩ =>
    match sys.registers.set x (sys.registers.get x ||| sys.registers.get y) with
    | none => none
    | some r => some { sys with registers := r }
  | ⟨8, x, y, 2⟩ =>
    match sys.registers.set x (sys.registers.get x &&& sys.registers.get y) with
    | none => none
    | some r => some { sys with registers := r }
  | ⟨8, x, y, 3⟩ =>
    match sys.registers.set x (sys.registers.get x ^^^ sys.registers.get y) with
    | none => none
    | some r => some { sys with registers := r }
  | ⟨8, x, y, 4⟩ =>
    let sum := sys.registers.get x + sys.registers.get y
    let sr : Nat × Registers :=
      if 0x100 ≤ sum then (sum - 0x100, (sys.registers.set_vF 0).set_vF 1)
      else (sum, sys.registers.set_vF 0)
    match sr.2.set x (sr.1 % 256) with
    | none => none
    | some r => some { sys with registers := r }
  | ⟨8, x, y, 5⟩ =>
    let sum := 0x100 + sys.registers.get x - sys.registers.get y
    let sr : Nat × Registers :=
      if 0x100 ≤ sum then (sum - 0x100, (sys.registers.set_vF 0).set_vF 1)
      else (sum, sys.registers.set_vF 0)
    match sr.2.set x (sr.1 % 256) with
    | none => none
    | some r => some { sys with registers := r }
  | ⟨8, x, _, 6⟩ =>
    let val := sys.registers.get x
    match (sys.registers.set_vF (x &&& 1)).set x (val >>> 1) with
    | none => none
    | some r => some { sys with registers := r }
  | ⟨8, x, y, 7⟩ =>
    let sum := 0x100 + sys.registers.get y - sys.registers.get x
    let sr : Nat × Registers :=
      if 0x100 ≤ sum then (sum - 0x100, (sys.registers.set_vF 0).set_vF 1)
      else (sum, sys.registers.set_vF 0)
    match sr.2.set x (sr.1 % 256) with
    | none => none
    | some r => some { sys with registers := r }
  | ⟨8, x, _, 0xE⟩ =>
    let r0 := sys.registers.set_vF ((x &&& 128) >>> 7)
    let val0 := sys.registers.get x <<< 1
    let val1 := if 0x100 < val0 then val0 - 0x100 else val0
    match r0.set x (val1 % 256) with
    | none => none
    | some r => some { sys with registers := r }
  | ⟨9, x, y, 0⟩ =>
    if sys.registers.get x ≠ sys.registers.get y then some sys.increment_pc
    else some sys
  | ⟨0xA, n1, n2, n3⟩ =>
    some { sys with registers := sys.registers.set_i (big_endian_4_3 n1 n2 n3) }
  | ⟨0xB, n1, n2, n3⟩ =>
    some { sys with pc := big_endian_4_3 n1 n2 n3 + sys.registers.get 0 }
  | ⟨0xC, x, n1, n2⟩ =>
    let val := big_endian_4_2 n1 n2
    let r := (sys.rng sys.rngIdx % 256) &&& val
    match sys.registers.set x r with
    | none => none
    | some rs => some { sys with registers := rs, rngIdx := sys.rngIdx + 1 }
  | ⟨0xD, x, y, n⟩ =>
    let x_pos := sys.registers.get x % 64
    let y_pos := sys.registers.get y % 32
    match drawRows x_pos y_pos sys.screen_width sys.screen_height
        sys.registers.i 0 n sys.memory 0 with
    | none => none
    | some (m2, vf) =>
      some { sys with memory := m2, registers := sys.registers.set_vF vf }
  | ⟨0xE, x, 0x9, 0xE⟩ =>
    if sys.keyboard.get x then some sys.increment_pc else some sys
  | ⟨0xE, x, 0xA, 0x1⟩ =>
    if sys.keyboard.get x then some sys else some sys.increment_pc
  | ⟨0xF, x, 0x0, 0x7⟩ =>
    match sys.registers.set x sys.delay_timer.get with
    | none => none
    | some r => some { sys with registers := r }
  | ⟨0xF, x, 0x0, 0xA⟩ =>
    let l := sys.keyboard.latest
    if l = 16 then some { sys with pc := sys.pc - 2 }
    else
      match sys.registers.set x l with
      | none => none
      | some r => some { sys with registers := r }
  | ⟨0xF, x, 0x1, 0x5⟩ =>
    some { sys with delay_timer := sys.delay_timer.set (sys.registers.get x) }
  | ⟨0xF, x, 0x1, 0x8⟩ =>
    some { sys with sound_timer := sys.sound_timer.set (sys.registers.get x) }
  | ⟨0xF, x, 0x1, 0xE⟩ =>
    let val := (sys.registers.i + sys.registers.get x) % 65536
    if 0x1000 ≤ val then
      some { sys with registers := (sys.registers.set_vF 1).set_i (val - 0x1000) }
    else
      some { sys with registers := sys.registers.set_i val }
  | ⟨0xF, x, 0x2, 0x9⟩ =>
    let c := sys.registers.get x &&& 0xF
    some { sys with registers := sys.registers.set_i (0x50 + 5 * c) }
  | ⟨0xF, x, 0x3, 0x3⟩ =>
    let value := sys.registers.get x
    match sys.memory.store sys.registers.i (value / 100) with
    | none => none
    | some m1 =>
      match m1.store (sys.registers.i + 1) (value % 100 / 10) with
      | none => none
      | some m2 =>
        match m2.store (sys.registers.i + 2) (value % 10) with
        | none => none
        | some m3 => some { sys with memory := m3 }
  | ⟨0xF, x, 0x5, 0x5⟩ =>
    match storeRegsRange sys.registers 0 (x + 1) sys.memory with
    | none => none
    | some m => some { sys with memory := m }
  | ⟨0xF, x, 0x6, 0x5⟩ =>
    match loadRegsRange sys.memory 0 (x + 1) sys.registers with
    | none => none
    | some r => some { sys with registers := r }
  | _ => none

/-- Loop body of `System::load`: the program bytes are stored starting at
address 0x200. -/
def Memory.loadBytes (m : Memory) (bytes : List Nat) (idx : Nat) : Option Memory :=
  match bytes with
  | [] => some m
  | b :: rest =>
    match m.store (0x200 + idx) b with
    | none => none
    | some m2 => m2.loadBytes rest (idx + 1)

/-- `System::load`: loads the program image and sets the program counter to
0x200. -/
def System.load (sys : System) (prog : List Nat) : Option System :=
  match sys.memory.loadBytes prog 0 with
  | none => none
  | some m => some { sys with memory := m, pc := 0x200 }

/-- One iteration of `System::run`: either the fetched word was the zero
sentinel and the loop breaks (`halt`), or the word is decoded and executed
(`next`, `none` on a panic).  The display refresh and the pacing sleep are
pure output/timing and do not touch the machine state. -/
inductive StepResult where
  | halt (s : System)
  | next (s : Option System)

/-- Whether a step outcome is the loop exit. -/
def StepResult.isHalt : StepResult → Bool
  | .halt _ => true
  | .next _ => false

/-- One cycle of `System::run`: update both timers, refresh the keyboard,
fetch, advance the program counter, then test the halt sentinel and
otherwise decode and execute. -/
def System.step (sys : System) (now : Nat) (ext : Nat → Bool) : StepResult :=
  let s1 := { sys with
    delay_timer := sys.delay_timer.update now,
    sound_timer := sys.sound_timer.update now,
    keyboard := sys.keyboard.update ext }
  let op1 := s1.memory.get s1.pc
  let op2 := s1.memory.get (s1.pc + 1)
  let s2 := s1.increment_pc
  if op1 = 0 ∧ op2 = 0 then .halt s2
  else .next ((Instruction.fromWord (big_endian_8_2 op1 op2)).execute s2)

/-- Outcome of running the engine over a finite trace of external inputs
(one wall-clock reading and keyboard snapshot per cycle). -/
inductive RunResult where
  | halted (s : System) (executed : Nat)
  | crashed
  | fuelOut (s : System)

/-- The number of executed instructions on a halting run. -/
def RunResult.executedCount : RunResult → Option Nat
  | .halted _ n => some n
  | _ => none

/-- The machine state on a halting run. -/
def RunResult.finalState : RunResult → Option System
  | .halted s _ => some s
  | _ => none

/-- `System::run`, driven by a finite list of per-cycle external inputs;
`halted` counts the instructions executed before the sentinel fired. -/
def System.run (sys : System) : List (Nat × (Nat → Bool)) → RunResult
  | [] => .fuelOut sys
  | (now, ext) :: rest =>
    match sys.step now ext with
    | .halt s => .halted s 0
    | .next none => .crashed
    | .next (some s) =>
      match s.run rest with
      | .halted s2 n => .halted s2 (n + 1)
      | r => r

/-- A concrete machine state used by witnesses and counterexamples: blank
memory, zeroed registers, the default peripheral state of `System::new`. -/
def baseSystem : System where
  memory := ⟨fun _ => 0⟩
  registers := ⟨fun _ => 0, 0⟩
  stack := ⟨[]⟩
  delay_timer := ⟨0, 0⟩
  sound_timer := ⟨0, 0⟩
  keyboard := ⟨fun _ => false, 16⟩
  rng := fun _ => 0
  rngIdx := 0
  pc := 0
  screen_width := 64
  screen_height := 32
  loop_frequency := 700

/-- Fixture: a machine with the one-byte sprite 0x80 stored at address 0x300
(outside the display sub-range), the index register pointing at it, all `V`
registers zero and the display clear. -/
def spriteSystem : System :=
  { baseSystem with
    memory := ⟨fun a => if a = 0x300 then 0x80 else 0⟩,
    registers := ⟨fun _ => 0, 0x300⟩ }

/-- Fixture: like `spriteSystem` but the display byte 0xF00 the sprite lands
on is already set. -/
def spriteSystemSet : System :=
  { baseSystem with
    memory := ⟨fun a => if a = 0x300 then 0x80 else if a = 0xF00 then 0x80 else 0⟩,
    registers := ⟨fun _ => 0, 0x300⟩ }

/-- Verification-side companion of `drawCols`: the XOR mask the inner draw
loop applies to the byte at address `a` (same control flow, no memory). -/
def colsMask (sb x_pos y sw : Nat) (j rem a : Nat) : Nat :=
  match rem with
  | 0 => 0
  | r + 1 =>
    if sw ≤ x_pos + j then 0
    else if sb &&& (1 <<< (7 - j)) = 0 then colsMask sb x_pos y sw (j + 1) r a
    else
      (if a = 0xF00 + ((x_pos + j) + y * 64) / 8
        then 1 <<< (7 - (x_pos + j) % 8) else 0) ^^^
        colsMask sb x_pos y sw (j + 1) r a

/-- Verification-side companion of `drawCols`: whether the inner draw loop
flips some pixel that is set in the memory `m`. -/
def colsHit (m : Memory) (sb x_pos y sw : Nat) (j rem : Nat) : Bool :=
  match rem with
  | 0 => false
  | r + 1 =>
    if sw ≤ x_pos + j then false
    else if sb &&& (1 <<< (7 - j)) = 0 then colsHit m sb x_pos y sw (j + 1) r
    else (m.pixel (x_pos + j) y || colsHit m sb x_pos y sw (j + 1) r)

/-- Verification-side companion of `drawRows`: the XOR mask of the whole
sprite draw on the byte at address `a`, reading sprite rows from the fixed
memory `msrc`. -/
def rowsMask (msrc : Memory) (x_pos y_pos sw sh iReg : Nat) (i rem a : Nat) : Nat :=
  match rem with
  | 0 => 0
  | r + 1 =>
    if sh ≤ y_pos + i then 0
    else
      colsMask (msrc.get (iReg + i)) x_pos (y_pos + i) sw 0 8 a ^^^
        rowsMask msrc x_pos y_pos sw sh iReg (i + 1) r a

/-- Verification-side companion of `drawRows`: whether the whole sprite draw
flips some pixel that is set in the fixed memory `msrc`. -/
def rowsHit (msrc : Memory) (x_pos y_pos sw sh iReg : Nat) (i rem : Nat) : Bool :=
  match rem with
  | 0 => false
  | r + 1 =>
    if sh ≤ y_pos + i then false
    else
      (colsHit msrc (msrc.get (iReg + i)) x_pos (y_pos + i) sw 0 8 ||
        rowsHit msrc x_pos y_pos sw sh iReg (i + 1) r)

/-! ## Basic lemmas about the register file -/

theorem Registers.get_set_vF_self (r : Registers) (val : Nat) :
    (r.set_vF val).get 15 = val := by
  simp [Registers.set_vF, Registers.get]

theorem Registers.get_set_vF_ne (r : Registers) (val : Nat) {j : Nat} (h : j ≠ 15) :
    (r.set_vF val).get j = r.get j := by
  simp [Registers.set_vF, Registers.get, h]

theorem Registers.set_vF_i (r : Registers) (val : Nat) : (r.set_vF val).i = r.i := rfl

theorem Registers.get_set_i (r : Registers) (val j : Nat) :
    (r.set_i val).get j = r.get j := rfl

theorem Registers.set_eq_some (r : Registers) {idx : Nat} (val : Nat) (h : idx < 16) :
    r.set idx val = some ⟨fun j => if j = idx then val else r.v j, r.i⟩ := by
  simp [Registers.set, h]

theorem Registers.get_mk (v : Nat → Nat) (i j : Nat) :
    Registers.get ⟨v, i⟩ j = if j < 16 then v j else 0 := rfl

/-! ## Claim C3: `Timer::set` -/

/-- C3 (amended): `Timer::set(N)` writes the value `N` and leaves the
last-update clock untouched (it does not reset the decay clock). -/
theorem C3_timer_set_value_only (t : Timer) (n : Nat) :
    (t.set n).value = n ∧ (t.set n).last_update = t.last_update :=
  ⟨rfl, rfl⟩

/-- C3 counterexample: the claim says `set` resets the decay clock to the
current time.  Take a timer whose clock reads 7 and call `set 3` at a moment
when the wall clock reads 100: the clock field still reads 7, not 100
(`Timer::set` does not even observe the current time). -/
theorem C3_timer_set_counterexample :
    (Timer.set ⟨5, 7⟩ 3).last_update = 7 ∧ (7 : Nat) ≠ 100 := by
  constructor
  · rfl
  · decide

/-! ## Claim C4: `Timer::update` while the value is zero -/

/-- C4 (amended): when `update` runs with value 0, the value stays 0, but the
last-update clock IS reset to the current time whenever more than 16 ms have
elapsed (and left unchanged otherwise) — the clock reset in the source is not
guarded by the value. -/
theorem Timer.update_value (t : Timer) (now : Nat) :
    (t.update now).value =
      if 16 < now - t.last_update ∧ 0 < t.value then t.value - 1 else t.value := by
  by_cases h1 : 16 < now - t.last_update <;> by_cases h2 : 0 < t.value <;>
    simp [Timer.update, Timer.tick, h1, h2]

theorem Timer.update_last (t : Timer) (now : Nat) :
    (t.update now).last_update =
      if 16 < now - t.last_update then now else t.last_update := by
  by_cases h1 : 16 < now - t.last_update <;>
    simp [Timer.update, Timer.tick, h1]

theorem C4_timer_update_zero (t : Timer) (now : Nat) (h : t.value = 0) :
    (t.update now).value = 0 ∧
      (t.update now).last_update =
        (if 16 < now - t.last_update then now else t.last_update) := by
  refine ⟨?_, Timer.update_last t now⟩
  rw [Timer.update_value]
  simp [h]

theorem C4_timer_update_zero_witness :
    (Timer.update ⟨0, 5⟩ 100).value = 0 ∧ (Timer.update ⟨0, 5⟩ 100).last_update = 100 := by
  obtain ⟨h1, h2⟩ := C4_timer_update_zero ⟨0, 5⟩ 100 rfl
  refine ⟨h1, ?_⟩
  rw [h2]
  norm_num

/-- C4 counterexample: with value 0, clock 0 and current time 100, `update`
sets the clock to 100 — the claim says it stays 0. -/
theorem C4_timer_update_zero_counterexample :
    (Timer.update ⟨0, 0⟩ 100).last_update = 100 ∧ (100 : Nat) ≠ 0 := by
  constructor
  · decide
  · decide

/-! ## Claim C5: `Timer::update` decrement condition -/

/-- C5 (amended): `update` decrements by exactly 1 and resets the clock when
STRICTLY more than 16 ms (at least 17 ms) have elapsed since the recorded
last update and the value is nonzero; otherwise the value is unchanged; the
value never goes below 0. -/
theorem C5_timer_update_decrement (t : Timer) (now : Nat) :
    ((16 < now - t.last_update ∧ 0 < t.value) →
        (t.update now).value = t.value - 1 ∧ (t.update now).last_update = now) ∧
    (¬(16 < now - t.last_update ∧ 0 < t.value) →
        (t.update now).value = t.value) ∧
    (t.update now).value ≤ t.value ∧
    (t.value = 0 → (t.update now).value = 0) := by
  have hv := Timer.update_value t now
  have hl := Timer.update_last t now
  by_cases h1 : 16 < now - t.last_update <;> by_cases h2 : 0 < t.value <;>
    simp [h1, h2] at hv hl <;> refine ⟨?_, ?_, ?_, ?_⟩ <;> simp [h1, h2, hv, hl] <;> omega

theorem C5_timer_update_decrement_witness :
    (16 < 20 - 0 ∧ 0 < 5) ∧
      (Timer.update ⟨5, 0⟩ 20).value = 4 ∧ (Timer.update ⟨5, 0⟩ 20).last_update = 20 := by
  refine ⟨by decide, ?_⟩
  exact (C5_timer_update_decrement ⟨5, 0⟩ 20).1 (by decide)

/-- C5 counterexample: with exactly 16 ms elapsed (clock 0, now 16) and value
5, the source does not decrement (`dt > 16` is strict), so the value stays 5
while the claim ("at least 16 ms") predicts 4. -/
theorem C5_timer_update_decrement_counterexample :
    (Timer.update ⟨5, 0⟩ 16).value = 5 ∧ (5 : Nat) ≠ 4 := by
  constructor
  · decide
  · decide

/-! ## Claim C6: memory access bounds -/

/-- C6: `Memory::get` at or beyond 4096 returns 0 and never faults, while
`Memory::store` at or beyond 4096 panics (`none`); inside 0–4095 `get` reads
the addressed byte and `store` rewrites exactly that byte. -/
theorem C6_memory_bounds (m : Memory) (a b : Nat) :
    (4096 ≤ a → m.get a = 0 ∧ m.store a b = none) ∧
    (a < 4096 → m.get a = m.mem a ∧
      ∃ m2, m.store a b = some m2 ∧ m2.get a = b ∧
        ∀ a2, a2 ≠ a → m2.get a2 = m.get a2) := by
  constructor
  · intro h
    have hlt : ¬ a < 4096 := by omega
    simp [Memory.get, Memory.store, hlt]
  · intro h
    refine ⟨by simp [Memory.get, h], ⟨fun j => if j = a then b else m.mem j⟩, ?_, ?_, ?_⟩
    · simp [Memory.store, h]
    · simp [Memory.get, h]
    · intro a2 hne
      simp [Memory.get, hne]

theorem C6_memory_bounds_witness :
    Memory.get ⟨fun _ => 0⟩ 5000 = 0 ∧ Memory.store ⟨fun _ => 0⟩ 5000 7 = none ∧
    (Memory.store ⟨fun _ => 0⟩ 1000 7).map (fun m2 => m2.get 1000) = some 7 := by
  obtain ⟨h1, -⟩ := C6_memory_bounds ⟨fun _ => 0⟩ 5000 7
  obtain ⟨hg, hs⟩ := h1 (by omega)
  obtain ⟨-, h2⟩ := C6_memory_bounds ⟨fun _ => 0⟩ 1000 7
  obtain ⟨-, m2, hm2, hget, -⟩ := h2 (by omega)
  refine ⟨hg, hs, ?_⟩
  rw [hm2, Option.map_some']
  rw [hget]

/-! ## Claim C8: decode / re-encode round trip -/

theorem and_mask_shift (w k m : Nat) :
    w &&& ((2 ^ m - 1) <<< k) = ((w >>> k) % 2 ^ m) <<< k := by
  apply Nat.eq_of_testBit_eq
  intro i
  simp only [Nat.testBit_land, Nat.testBit_shiftLeft, Nat.testBit_two_pow_sub_one,
    Nat.testBit_mod_two_pow, Nat.testBit_shiftRight]
  by_cases h1 : k ≤ i
  · by_cases h2 : i - k < m
    · simp [h1, h2, Nat.add_sub_cancel' h1]
    · simp [h1, h2]
  · simp [h1]

theorem fromWord_n0 (w : Nat) : (Instruction.fromWord w).n0 = w / 4096 % 16 := by
  show (w &&& 0xF000) >>> 12 = _
  have e : (0xF000 : Nat) = (2 ^ 4 - 1) <<< 12 := by decide
  rw [e, and_mask_shift, Nat.shiftLeft_shiftRight, Nat.shiftRight_eq_div_pow]
  norm_num

theorem fromWord_n1 (w : Nat) : (Instruction.fromWord w).n1 = w / 256 % 16 := by
  show (w &&& 0x0F00) >>> 8 = _
  have e : (0x0F00 : Nat) = (2 ^ 4 - 1) <<< 8 := by decide
  rw [e, and_mask_shift, Nat.shiftLeft_shiftRight, Nat.shiftRight_eq_div_pow]
  norm_num

theorem fromWord_n2 (w : Nat) : (Instruction.fromWord w).n2 = w / 16 % 16 := by
  show (w &&& 0x00F0) >>> 4 = _
  have e : (0x00F0 : Nat) = (2 ^ 4 - 1) <<< 4 := by decide
  rw [e, and_mask_shift, Nat.shiftLeft_shiftRight, Nat.shiftRight_eq_div_pow]
  norm_num

theorem fromWord_n3 (w : Nat) : (Instruction.fromWord w).n3 = w % 16 := by
  show w &&& 0x000F = _
  have e : (0x000F : Nat) = (2 ^ 4 - 1) <<< 0 := by decide
  rw [e, and_mask_shift]
  simp

/-- C8: decoding a 16-bit word into four nibbles and re-encoding them
big-endian (`big_endian_4_2` twice, then `big_endian_8_2`) reproduces the
word; every decoded nibble is below 16. -/
theorem C8_decode_encode (w : Nat) (hw : w < 65536) :
    (Instruction.fromWord w).n0 < 16 ∧ (Instruction.fromWord w).n1 < 16 ∧
    (Instruction.fromWord w).n2 < 16 ∧ (Instruction.fromWord w).n3 < 16 ∧
    big_endian_8_2
      (big_endian_4_2 (Instruction.fromWord w).n0 (Instruction.fromWord w).n1)
      (big_endian_4_2 (Instruction.fromWord w).n2 (Instruction.fromWord w).n3) = w := by
  rw [fromWord_n0, fromWord_n1, fromWord_n2, fromWord_n3]
  unfold big_endian_8_2 big_endian_4_2
  refine ⟨?_, ?_, ?_, ?_, ?_⟩ <;> omega

theorem C8_decode_encode_witness :
    (0xD01F : Nat) < 65536 ∧
    big_endian_8_2
      (big_endian_4_2 (Instruction.fromWord 0xD01F).n0 (Instruction.fromWord 0xD01F).n1)
      (big_endian_4_2 (Instruction.fromWord 0xD01F).n2 (Instruction.fromWord 0xD01F).n3) =
      0xD01F := by
  refine ⟨by decide, ?_⟩
  exact (C8_decode_encode 0xD01F (by decide)).2.2.2.2

/-! ## Claim C10: `F x 1 E` without carry -/

/-- Unfolding of the `F x 1 E` arm of the dispatch. -/
theorem execute_Fx1E_def (sys : System) (x : Nat) :
    Instruction.execute ⟨0xF, x, 0x1, 0xE⟩ sys =
      (let val := (sys.registers.i + sys.registers.get x) % 65536
       if 0x1000 ≤ val then
         some { sys with registers := (sys.registers.set_vF 1).set_i (val - 0x1000) }
       else
         some { sys with registers := sys.registers.set_i val }) := rfl

/-- C10: when `I + Vx` stays below 0x1000, `F x 1 E` sets `I` to the sum
and leaves the flag register V15 — and every other `V` register — plus the
memory and the program counter unchanged. -/
theorem C10_index_add_no_flag (sys : System) (x : Nat)
    (hsum : sys.registers.i + sys.registers.get x < 0x1000) :
    ∃ s2, Instruction.execute ⟨0xF, x, 0x1, 0xE⟩ sys = some s2 ∧
      s2.registers.i = sys.registers.i + sys.registers.get x ∧
      (∀ j, s2.registers.get j = sys.registers.get j) ∧
      s2.memory = sys.memory ∧ s2.pc = sys.pc := by
  have hm : (sys.registers.i + sys.registers.get x) % 65536 =
      sys.registers.i + sys.registers.get x :=
    Nat.mod_eq_of_lt (by omega)
  rw [execute_Fx1E_def]
  simp only [hm]
  rw [if_neg (by omega)]
  exact ⟨_, rfl, rfl, fun j => Registers.get_set_i sys.registers _ j, rfl, rfl⟩

theorem C10_index_add_no_flag_witness :
    (0xFF0 + 0xF : Nat) < 0x1000 ∧
    (Instruction.execute ⟨0xF, 3, 0x1, 0xE⟩
        { baseSystem with registers := ⟨fun j => if j = 3 then 0xF else 0, 0xFF0⟩ }).map
      (fun s => (s.registers.i, s.registers.get 15)) = some (0xFFF, 0) := by
  refine ⟨by decide, ?_⟩
  obtain ⟨s2, he, hi, hv, -, -⟩ :=
    C10_index_add_no_flag
      { baseSystem with registers := ⟨fun j => if j = 3 then 0xF else 0, 0xFF0⟩ } 3
      (by decide)
  rw [he, Option.map_some']
  rw [hi, hv 15]
  rfl

/-! ## Claim C1: `8 x y 4` add with carry -/

/-- Unfolding of the `8 x y 4` arm of the dispatch. -/
theorem execute_8xy4_def (sys : System) (x y : Nat) :
    Instruction.execute ⟨8, x, y, 4⟩ sys =
      (let sum := sys.registers.get x + sys.registers.get y
       let sr : Nat × Registers :=
         if 0x100 ≤ sum then (sum - 0x100, (sys.registers.set_vF 0).set_vF 1)
         else (sum, sys.registers.set_vF 0)
       match sr.2.set x (sr.1 % 256) with
       | none => none
       | some r => some { sys with registers := r }) := rfl

/-- C1 (amended): for register indices `x ≠ 15` and any `y`, `8 x y 4` sets
`Vx` to the low byte of `Vx + Vy` and the flag register V15 to 1 when the
full sum reaches 256, else 0.  (For `x = 15` the final register write
overwrites the flag with the low byte, so the restriction is necessary.) -/
theorem C1_add_with_carry (sys : System) (x y : Nat) (hx : x < 16) (hy : y < 16)
    (hx15 : x ≠ 15)
    (hvx : sys.registers.get x < 256) (hvy : sys.registers.get y < 256) :
    ∃ s2, Instruction.execute ⟨8, x, y, 4⟩ sys = some s2 ∧
      s2.registers.get x = (sys.registers.get x + sys.registers.get y) % 256 ∧
      s2.registers.get 15 =
        (if 256 ≤ sys.registers.get x + sys.registers.get y then 1 else 0) := by
  have h15x : (15 : Nat) ≠ x := fun h => hx15 h.symm
  rw [execute_8xy4_def]
  by_cases hc : 0x100 ≤ sys.registers.get x + sys.registers.get y
  · simp only [if_pos hc]
    rw [Registers.set_eq_some _ _ hx]
    refine ⟨_, rfl, ?_, ?_⟩
    · simp only [Registers.get_mk, if_pos hx, eq_self_iff_true, if_true]
      omega
    · simp [Registers.get_mk, h15x, Registers.set_vF, hc]
  · simp only [if_neg hc]
    rw [Registers.set_eq_some _ _ hx]
    refine ⟨_, rfl, ?_, ?_⟩
    · simp only [Registers.get_mk, if_pos hx, eq_self_iff_true, if_true]
    · simp [Registers.get_mk, h15x, Registers.set_vF, hc]

theorem C1_add_with_carry_witness :
    ((250 : Nat) < 256 ∧ (10 : Nat) < 256) ∧
    (Instruction.execute ⟨8, 1, 2, 4⟩
        { baseSystem with registers := ⟨fun j => if j = 1 then 250 else if j = 2 then 10 else 0, 0⟩ }).map
      (fun s => (s.registers.get 1, s.registers.get 15)) = some (4, 1) ∧
    (Instruction.execute ⟨8, 1, 2, 4⟩
        { baseSystem with registers := ⟨fun j => if j = 1 then 10 else if j = 2 then 5 else 0, 0⟩ }).map
      (fun s => (s.registers.get 1, s.registers.get 15)) = some (15, 0) := by
  refine ⟨by decide, ?_, ?_⟩
  · obtain ⟨s2, he, h1, h15⟩ :=
      C1_add_with_carry
        { baseSystem with registers := ⟨fun j => if j = 1 then 250 else if j = 2 then 10 else 0, 0⟩ }
        1 2 (by decide) (by decide) (by decide) (by decide) (by decide)
    rw [he, Option.map_some', h1, h15]
    decide
  · obtain ⟨s2, he, h1, h15⟩ :=
      C1_add_with_carry
        { baseSystem with registers := ⟨fun j => if j = 1 then 10 else if j = 2 then 5 else 0, 0⟩ }
        1 2 (by decide) (by decide) (by decide) (by decide) (by decide)
    rw [he, Option.map_some', h1, h15]
    decide

/-- C1 counterexample: at `x = 15` the claim fails.  With V15 = 250 and
V0 = 10 the sum is 260 ≥ 256, so the claim demands flag V15 = 1, but the
final write `Vx ← low byte` lands on V15 and leaves 4 there. -/
theorem C1_add_with_carry_counterexample :
    (Instruction.execute ⟨8, 15, 0, 4⟩
        { baseSystem with registers := ⟨fun j => if j = 15 then 250 else if j = 0 then 10 else 0, 0⟩ }).map
      (fun s => s.registers.get 15) = some 4 ∧
    (256 : Nat) ≤ 250 + 10 ∧ (4 : Nat) ≠ 1 := by
  refine ⟨by decide, by decide, by decide⟩

/-! ## Claim C2: `8 x _ 6` shift right, flag from the index -/

/-- Unfolding of the `8 x _ 6` arm of the dispatch. -/
theorem execute_8x6_def (sys : System) (x z : Nat) :
    Instruction.execute ⟨8, x, z, 6⟩ sys =
      (match (sys.registers.set_vF (x &&& 1)).set x (sys.registers.get x >>> 1) with
       | none => none
       | some r => some { sys with registers := r }) := rfl

/-- C2 (amended): for a register index `x ≠ 15`, `8 x _ 6` sets the flag
register V15 to bit 0 of the INDEX `x` (not of the value `Vx`) and sets `Vx`
to `Vx >> 1`.  (For `x = 15` the shifted value overwrites the flag, so the
restriction is necessary.) -/
theorem C2_shift_right_index_flag (sys : System) (x z : Nat) (hx : x < 16)
    (hx15 : x ≠ 15) :
    ∃ s2, Instruction.execute ⟨8, x, z, 6⟩ sys = some s2 ∧
      s2.registers.get 15 = x &&& 1 ∧
      s2.registers.get x = sys.registers.get x >>> 1 := by
  rw [execute_8x6_def, Registers.set_eq_some _ _ hx]
  refine ⟨_, rfl, ?_, ?_⟩
  · rw [Registers.get_mk, if_pos (by omega), if_neg (by omega)]
    show (sys.registers.set_vF (x &&& 1)).get 15 = x &&& 1
    exact Registers.get_set_vF_self _ _
  · rw [Registers.get_mk, if_pos hx, if_pos rfl]

theorem C2_shift_right_index_flag_witness :
    ((3 : Nat) < 16 ∧ (3 : Nat) ≠ 15) ∧
    (Instruction.execute ⟨8, 3, 0, 6⟩
        { baseSystem with registers := ⟨fun j => if j = 3 then 7 else 0, 0⟩ }).map
      (fun s => (s.registers.get 15, s.registers.get 3)) = some (1, 3) := by
  refine ⟨by decide, ?_⟩
  obtain ⟨s2, he, h15, h3⟩ :=
    C2_shift_right_index_flag
      { baseSystem with registers := ⟨fun j => if j = 3 then 7 else 0, 0⟩ } 3 0
      (by decide) (by decide)
  rw [he, Option.map_some', h15, h3]
  decide

/-- C2 counterexample: at `x = 15` the claim fails.  With V15 = 0 the claim
demands flag V15 = bit 0 of the index 15, which is 1, but the final write
`Vx ← Vx >> 1` lands on V15 and leaves 0 there. -/
theorem C2_shift_right_index_flag_counterexample :
    (Instruction.execute ⟨8, 15, 0, 6⟩ baseSystem).map (fun s => s.registers.get 15) =
      some 0 ∧
    (15 &&& 1 : Nat) = 1 ∧ (0 : Nat) ≠ 1 := by
  refine ⟨by decide, by decide, by decide⟩

/-! ## Claim C9: the halt sentinel -/

/-- C9: (1) a cycle of the run loop halts exactly when the two bytes fetched
at the program counter are both zero; (2) loading a program sets the counter
to 0x200; (3) running a machine whose fetched word is the zero sentinel
halts immediately with zero executed instructions, changing nothing but the
per-cycle timer/keyboard refresh and the program counter increment. -/
theorem C9_halt_sentinel :
    (∀ (sys : System) (now : Nat) (ext : Nat → Bool),
        (sys.step now ext).isHalt = true ↔
          (sys.memory.get sys.pc = 0 ∧ sys.memory.get (sys.pc + 1) = 0)) ∧
    (∀ (sys : System) (prog : List Nat) (s0 : System),
        sys.load prog = some s0 → s0.pc = 0x200) ∧
    (∀ (s0 : System) (now : Nat) (ext : Nat → Bool)
        (rest : List (Nat × (Nat → Bool))),
        s0.memory.get s0.pc = 0 → s0.memory.get (s0.pc + 1) = 0 →
        s0.run ((now, ext) :: rest) =
          RunResult.halted
            { s0 with
              delay_timer := s0.delay_timer.update now,
              sound_timer := s0.sound_timer.update now,
              keyboard := s0.keyboard.update ext,
              pc := s0.pc + 2 } 0) := by
  refine ⟨?_, ?_, ?_⟩
  · intro sys now ext
    show (if sys.memory.get sys.pc = 0 ∧ sys.memory.get (sys.pc + 1) = 0
        then StepResult.halt _ else StepResult.next _).isHalt = true ↔ _
    by_cases h : sys.memory.get sys.pc = 0 ∧ sys.memory.get (sys.pc + 1) = 0
    · rw [if_pos h]
      simp [StepResult.isHalt, h]
    · rw [if_neg h]
      simp [StepResult.isHalt, h]
  · intro sys prog s0 h
    unfold System.load at h
    revert h
    match hb : sys.memory.loadBytes prog 0 with
    | none => intro h; cases h
    | some m => intro h; cases h; rfl
  · intro s0 now ext rest h1 h2
    show (match s0.step now ext with
      | .halt s => RunResult.halted s 0
      | .next none => RunResult.crashed
      | .next (some s) =>
        match s.run rest with
        | .halted s2 n => .halted s2 (n + 1)
        | r => r) = _
    have hs : s0.step now ext =
        StepResult.halt
          { s0 with
            delay_timer := s0.delay_timer.update now,
            sound_timer := s0.sound_timer.update now,
            keyboard := s0.keyboard.update ext,
            pc := s0.pc + 2 } := by
      show (if s0.memory.get s0.pc = 0 ∧ s0.memory.get (s0.pc + 1) = 0
          then StepResult.halt _ else StepResult.next _) = _
      rw [if_pos ⟨h1, h2⟩]
      rfl
    rw [hs]

theorem C9_halt_sentinel_witness :
    ({ baseSystem with pc := 0x200 } : System).memory.get 0x200 = 0 ∧
    ({ baseSystem with pc := 0x200 } : System).memory.get 0x201 = 0 ∧
    (System.run { baseSystem with pc := 0x200 } [(5, fun _ => false)]).executedCount =
      some 0 ∧
    (System.run { baseSystem with pc := 0x200 } [(5, fun _ => false)]).finalState.map
      (fun s => (s.pc, s.memory.get 0x200)) = some (0x202, 0) := by
  refine ⟨by decide, by decide, ?_, ?_⟩ <;>
    rw [C9_halt_sentinel.2.2 { baseSystem with pc := 0x200 } 5 (fun _ => false) []
      (by decide) (by decide)] <;> rfl

/-! ## Claim C7: drawing the same sprite twice

The development characterises the two draw loops by the XOR mask they apply
to each memory byte (`colsMask` / `rowsMask`) and by whether they flip a
pixel that was set (`colsHit` / `rowsHit`). -/

theorem decide_and_pos_eq_testBit (c k : Nat) :
    decide (0 < c &&& (1 <<< k)) = c.testBit k := by
  rw [Nat.one_shiftLeft, Nat.and_two_pow]
  cases h : c.testBit k <;> simp [Nat.pos_pow_of_pos, Nat.two_pow_pos]

theorem pixel_coord_inj {x1 y1 x2 y2 : Nat} (hx1 : x1 < 64) (hx2 : x2 < 64)
    (hidx : 0xF00 + (x1 + y1 * 64) / 8 = 0xF00 + (x2 + y2 * 64) / 8)
    (hbit : 7 - x1 % 8 = 7 - x2 % 8) : x1 = x2 ∧ y1 = y2 := by
  omega

theorem flip_pixel_char (m : Memory) (x y : Nat) (hx : x < 64) (hy : y < 32) :
    ∃ m2, m.flip_pixel x y = some (m2, m.pixel x y) ∧
      ∀ a, m2.get a =
        if a = 0xF00 + (x + y * 64) / 8
        then m.get a ^^^ (1 <<< (7 - x % 8)) else m.get a := by
  have hidx : 0xF00 + (x + y * 64) / 8 < 4096 := by omega
  refine ⟨⟨fun a => if a = 0xF00 + (x + y * 64) / 8
      then m.get (0xF00 + (x + y * 64) / 8) ^^^ (1 <<< (7 - x % 8)) else m.mem a⟩, ?_, ?_⟩
  · show (match m.store (0xF00 + (x + y * 64) / 8)
        (m.get (0xF00 + (x + y * 64) / 8) ^^^ (1 <<< (7 - x % 8))) with
      | none => none
      | some m2 =>
        some (m2, decide (0 < m.get (0xF00 + (x + y * 64) / 8) &&& (1 <<< (7 - x % 8))))) = _
    rw [decide_and_pos_eq_testBit]
    simp only [Memory.store, if_pos hidx]
    rfl
  · intro a
    by_cases ha : a = 0xF00 + (x + y * 64) / 8
    · subst ha
      simp [Memory.get, hidx]
    · simp [Memory.get, ha]

theorem pixel_untouched (m mf : Memory) (x1 y1 x2 y2 : Nat)
    (hch : ∀ a, mf.get a =
      if a = 0xF00 + (x1 + y1 * 64) / 8
      then m.get a ^^^ (1 <<< (7 - x1 % 8)) else m.get a)
    (hx1 : x1 < 64) (hx2 : x2 < 64) (hne : ¬(x1 = x2 ∧ y1 = y2)) :
    mf.pixel x2 y2 = m.pixel x2 y2 := by
  unfold Memory.pixel
  rw [hch]
  by_cases hi : 0xF00 + (x2 + y2 * 64) / 8 = 0xF00 + (x1 + y1 * 64) / 8
  · rw [if_pos hi, Nat.testBit_xor, Nat.one_shiftLeft,
      Nat.testBit_two_pow_of_ne (fun hb => hne (pixel_coord_inj hx1 hx2 hi.symm hb)),
      Bool.xor_false]
  · rw [if_neg hi]

theorem colsHit_congr (sb x_pos y sw : Nat) :
    ∀ rem j (m1 m2 : Memory),
      (∀ j2, j ≤ j2 → j2 < j + rem → x_pos + j2 < sw →
        m1.pixel (x_pos + j2) y = m2.pixel (x_pos + j2) y) →
      colsHit m1 sb x_pos y sw j rem = colsHit m2 sb x_pos y sw j rem := by
  intro rem
  induction rem with
  | zero => intro j m1 m2 h; rfl
  | succ r ih =>
    intro j m1 m2 h
    simp only [colsHit]
    by_cases hb : sw ≤ x_pos + j
    · simp [hb]
    · simp only [if_neg hb]
      by_cases hz : sb &&& (1 <<< (7 - j)) = 0
      · simp only [if_pos hz]
        exact ih (j + 1) m1 m2 (fun j2 h1 h2 h3 => h j2 (by omega) (by omega) h3)
      · simp only [if_neg hz]
        rw [h j (le_refl j) (by omega) (by omega),
          ih (j + 1) m1 m2 (fun j2 h1 h2 h3 => h j2 (by omega) (by omega) h3)]

theorem drawCols_char (sb x_pos y : Nat) (hy : y < 32) :
    ∀ rem j (m : Memory) (vf : Nat), j + rem ≤ 8 →
      ∃ m2, drawCols sb x_pos y 64 j rem m vf =
          some (m2, if colsHit m sb x_pos y 64 j rem then 1 else vf) ∧
        ∀ a, m2.get a = m.get a ^^^ colsMask sb x_pos y 64 j rem a := by
  intro rem
  induction rem with
  | zero =>
    intro j m vf hj
    exact ⟨m, by simp [drawCols, colsHit], fun a => by simp [colsMask]⟩
  | succ r ih =>
    intro j m vf hj
    by_cases hb : 64 ≤ x_pos + j
    · refine ⟨m, ?_, fun a => ?_⟩
      · simp [drawCols, colsHit, hb]
      · simp [colsMask, hb]
    · by_cases hz : sb &&& (1 <<< (7 - j)) = 0
      · obtain ⟨m2, he, hc⟩ := ih (j + 1) m vf (by omega)
        refine ⟨m2, ?_, fun a => ?_⟩
        · simp only [drawCols, colsHit, if_neg hb, if_pos hz]
          exact he
        · simpa [colsMask, hb, hz] using hc a
      · obtain ⟨mf, hef, hcf⟩ := flip_pixel_char m (x_pos + j) y (by omega) hy
        obtain ⟨m2, he, hc⟩ :=
          ih (j + 1) mf (if m.pixel (x_pos + j) y then 1 else vf) (by omega)
        have hpix : ∀ j2, j + 1 ≤ j2 → j2 < j + 1 + r → x_pos + j2 < 64 →
            mf.pixel (x_pos + j2) y = m.pixel (x_pos + j2) y := by
          intro j2 h1 h2 h3
          exact pixel_untouched m mf (x_pos + j) y (x_pos + j2) y hcf (by omega) h3
            (fun hcontra => by omega)
        refine ⟨m2, ?_, fun a => ?_⟩
        · simp only [drawCols, colsHit, if_neg hb, if_neg hz, hef]
          rw [he, colsHit_congr sb x_pos y 64 r (j + 1) mf m hpix]
          by_cases hp : m.pixel (x_pos + j) y = true
          · simp [hp]
          · simp only [Bool.not_eq_true] at hp
            simp [hp]
        · rw [hc a, hcf a]
          simp only [colsMask, if_neg hb, if_neg hz]
          by_cases ha : a = 0xF00 + ((x_pos + j) + y * 64) / 8
          · rw [if_pos ha, if_pos ha, Nat.xor_assoc]
          · rw [if_neg ha, if_neg ha, Nat.zero_xor]

theorem colsMask_eq_zero (sb x_pos y : Nat) :
    ∀ rem j a, (a < 0xF00 + 8 * y ∨ 0xF00 + 8 * y + 8 ≤ a) →
      colsMask sb x_pos y 64 j rem a = 0 := by
  intro rem
  induction rem with
  | zero => intro j a ha; rfl
  | succ r ih =>
    intro j a ha
    simp only [colsMask]
    by_cases hb : 64 ≤ x_pos + j
    · simp [hb]
    · simp only [if_neg hb]
      by_cases hz : sb &&& (1 <<< (7 - j)) = 0
      · simp only [if_pos hz]
        exact ih (j + 1) a ha
      · simp only [if_neg hz]
        rw [if_neg (by omega), ih (j + 1) a ha]
        simp

theorem rowsMask_eq_zero (msrc : Memory) (x_pos y_pos iReg : Nat) :
    ∀ rem i a, (a < 0xF00 ∨ 0x1000 ≤ a) →
      rowsMask msrc x_pos y_pos 64 32 iReg i rem a = 0 := by
  intro rem
  induction rem with
  | zero => intro i a ha; rfl
  | succ r ih =>
    intro i a ha
    simp only [rowsMask]
    by_cases hb : 32 ≤ y_pos + i
    · simp [hb]
    · simp only [if_neg hb]
      rw [colsMask_eq_zero _ _ _ 8 0 a (by omega), ih (i + 1) a ha]
      simp

theorem rowsMask_congr (x_pos y_pos sw sh iReg : Nat) :
    ∀ rem i (m1 m2 : Memory) a,
      (∀ k, i ≤ k → k < i + rem → m1.get (iReg + k) = m2.get (iReg + k)) →
      rowsMask m1 x_pos y_pos sw sh iReg i rem a =
        rowsMask m2 x_pos y_pos sw sh iReg i rem a := by
  intro rem
  induction rem with
  | zero => intros; rfl
  | succ r ih =>
    intro i m1 m2 a h
    simp only [rowsMask]
    by_cases hb : sh ≤ y_pos + i
    · simp [hb]
    · simp only [if_neg hb]
      rw [h i (le_refl i) (by omega),
        ih (i + 1) m1 m2 a (fun k h1 h2 => h k (by omega) (by omega))]

theorem rowsHit_congr (x_pos y_pos iReg : Nat) :
    ∀ rem i (m1 m2 : Memory),
      (∀ k, i ≤ k → k < i + rem → m1.get (iReg + k) = m2.get (iReg + k)) →
      (∀ x2 k, i ≤ k → k < i + rem → y_pos + k < 32 → x2 < 64 →
        m1.pixel x2 (y_pos + k) = m2.pixel x2 (y_pos + k)) →
      rowsHit m1 x_pos y_pos 64 32 iReg i rem =
        rowsHit m2 x_pos y_pos 64 32 iReg i rem := by
  intro rem
  induction rem with
  | zero => intros; rfl
  | succ r ih =>
    intro i m1 m2 hspr hpix
    simp only [rowsHit]
    by_cases hb : 32 ≤ y_pos + i
    · simp [hb]
    · simp only [if_neg hb]
      rw [hspr i (le_refl i) (by omega)]
      rw [colsHit_congr (m2.get (iReg + i)) x_pos (y_pos + i) 64 8 0 m1 m2
        (fun j2 h1 h2 h3 => hpix (x_pos + j2) i (le_refl i) (by omega) (by omega) h3)]
      rw [ih (i + 1) m1 m2 (fun k h1 h2 => hspr k (by omega) (by omega))
        (fun x2 k h1 h2 h3 h4 => hpix x2 k (by omega) (by omega) h3 h4)]

theorem drawRows_char (x_pos y_pos iReg : Nat) :
    ∀ rem i (m : Memory) (vf : Nat),
      (∀ k, i ≤ k → k < i + rem → iReg + k < 0xF00 ∨ 0x1000 ≤ iReg + k) →
      ∃ m2, drawRows x_pos y_pos 64 32 iReg i rem m vf =
          some (m2, if rowsHit m x_pos y_pos 64 32 iReg i rem then 1 else vf) ∧
        ∀ a, m2.get a = m.get a ^^^ rowsMask m x_pos y_pos 64 32 iReg i rem a := by
  intro rem
  induction rem with
  | zero =>
    intro i m vf hd
    exact ⟨m, by simp [drawRows, rowsHit], fun a => by simp [rowsMask]⟩
  | succ r ih =>
    intro i m vf hd
    by_cases hb : 32 ≤ y_pos + i
    · refine ⟨m, ?_, fun a => ?_⟩
      · simp [drawRows, rowsHit, hb]
      · simp [rowsMask, hb]
    · obtain ⟨m1, he1, hc1⟩ :=
        drawCols_char (m.get (iReg + i)) x_pos (y_pos + i) (by omega) 8 0 m vf
          (by omega)
      have hspr : ∀ k, i + 1 ≤ k → k < i + 1 + r →
          m1.get (iReg + k) = m.get (iReg + k) := by
        intro k h1 h2
        rw [hc1 (iReg + k), colsMask_eq_zero _ _ _ 8 0 (iReg + k) ?_, Nat.xor_zero]
        rcases hd k (by omega) (by omega) with h | h
        · left
          omega
        · right
          omega
      have hpix1 : ∀ x2 k, i + 1 ≤ k → k < i + 1 + r → y_pos + k < 32 → x2 < 64 →
          m1.pixel x2 (y_pos + k) = m.pixel x2 (y_pos + k) := by
        intro x2 k h1 h2 h3 h4
        unfold Memory.pixel
        rw [hc1, colsMask_eq_zero _ _ _ 8 0 _ ?_, Nat.xor_zero]
        right
        omega
      obtain ⟨m2, he2, hc2⟩ :=
        ih (i + 1) m1
          (if colsHit m (m.get (iReg + i)) x_pos (y_pos + i) 64 0 8 then 1 else vf)
          (fun k h1 h2 => hd k (by omega) (by omega))
      refine ⟨m2, ?_, fun a => ?_⟩
      · simp only [drawRows, if_neg hb, he1, he2, rowsHit]
        rw [rowsHit_congr x_pos y_pos iReg r (i + 1) m1 m hspr hpix1]
        by_cases hh : colsHit m (m.get (iReg + i)) x_pos (y_pos + i) 64 0 8 = true
        · simp [hh]
        · simp only [Bool.not_eq_true] at hh
          simp [hh]
      · rw [hc2 a, hc1 a]
        simp only [rowsMask, if_neg hb]
        rw [rowsMask_congr x_pos y_pos 64 32 iReg r (i + 1) m1 m a hspr, Nat.xor_assoc]

theorem colsMask_testBit (sb x_pos y : Nat) (x2 : Nat) (hx2 : x2 < 64) :
    ∀ rem j, j + rem ≤ 8 →
      ((colsMask sb x_pos y 64 j rem (0xF00 + (x2 + y * 64) / 8)).testBit (7 - x2 % 8) =
          true ↔
        ∃ j2, j ≤ j2 ∧ j2 < j + rem ∧ x_pos + j2 < 64 ∧
          sb &&& (1 <<< (7 - j2)) ≠ 0 ∧ x2 = x_pos + j2) := by
  intro rem
  induction rem with
  | zero =>
    intro j hj
    simp only [colsMask, Nat.zero_testBit]
    constructor
    · intro h
      cases h
    · rintro ⟨j2, h1, h2, -⟩
      omega
  | succ r ih =>
    intro j hj
    simp only [colsMask]
    by_cases hb : 64 ≤ x_pos + j
    · rw [if_pos hb]
      simp only [Nat.zero_testBit]
      constructor
      · intro h
        cases h
      · rintro ⟨j2, h1, h2, h3, -⟩
        omega
    · rw [if_neg hb]
      by_cases hz : sb &&& (1 <<< (7 - j)) = 0
      · rw [if_pos hz, ih (j + 1) (by omega)]
        constructor
        · rintro ⟨j2, h1, h2, h3, h4, h5⟩
          exact ⟨j2, by omega, by omega, h3, h4, h5⟩
        · rintro ⟨j2, h1, h2, h3, h4, h5⟩
          by_cases hjj : j2 = j
          · subst hjj
            exact absurd hz h4
          · exact ⟨j2, by omega, by omega, h3, h4, h5⟩
      · rw [if_neg hz, Nat.testBit_xor]
        by_cases hx : x2 = x_pos + j
        · have hA : 0xF00 + (x2 + y * 64) / 8 = 0xF00 + ((x_pos + j) + y * 64) / 8 := by
            rw [hx]
          rw [if_pos hA, Nat.one_shiftLeft]
          have hbit : (2 ^ (7 - (x_pos + j) % 8)).testBit (7 - x2 % 8) = true := by
            rw [hx]
            exact Nat.testBit_two_pow_self
          have hrest : (colsMask sb x_pos y 64 (j + 1) r
              (0xF00 + (x2 + y * 64) / 8)).testBit (7 - x2 % 8) = false := by
            rw [← Bool.not_eq_true, ih (j + 1) (by omega)]
            rintro ⟨j2, h1, h2, h3, h4, h5⟩
            omega
          rw [hbit, hrest]
          constructor
          · intro _
            exact ⟨j, le_refl j, by omega, by omega, hz, hx⟩
          · intro _
            rfl
        · have hcontrib : (if 0xF00 + (x2 + y * 64) / 8 =
                0xF00 + ((x_pos + j) + y * 64) / 8
              then 1 <<< (7 - (x_pos + j) % 8) else 0).testBit (7 - x2 % 8) = false := by
            by_cases hA : 0xF00 + (x2 + y * 64) / 8 = 0xF00 + ((x_pos + j) + y * 64) / 8
            · rw [if_pos hA, Nat.one_shiftLeft]
              exact Nat.testBit_two_pow_of_ne
                (fun hb2 => hx ((pixel_coord_inj (by omega) hx2 hA.symm hb2).1).symm)
            · rw [if_neg hA]
              exact Nat.zero_testBit _
          rw [hcontrib, Bool.false_xor, ih (j + 1) (by omega)]
          constructor
          · rintro ⟨j2, h1, h2, h3, h4, h5⟩
            exact ⟨j2, by omega, by omega, h3, h4, h5⟩
          · rintro ⟨j2, h1, h2, h3, h4, h5⟩
            by_cases hjj : j2 = j
            · subst hjj
              exact absurd h5 hx
            · exact ⟨j2, by omega, by omega, h3, h4, h5⟩

theorem rowsMask_testBit (msrc : Memory) (x_pos y_pos iReg : Nat) (x2 y2 : Nat)
    (hx2 : x2 < 64) (hy2 : y2 < 32) :
    ∀ rem i,
      ((rowsMask msrc x_pos y_pos 64 32 iReg i rem
          (0xF00 + (x2 + y2 * 64) / 8)).testBit (7 - x2 % 8) = true ↔
        ∃ k, i ≤ k ∧ k < i + rem ∧ y_pos + k < 32 ∧ y2 = y_pos + k ∧
          ∃ j2, j2 < 8 ∧ x_pos + j2 < 64 ∧
            msrc.get (iReg + k) &&& (1 <<< (7 - j2)) ≠ 0 ∧ x2 = x_pos + j2) := by
  intro rem
  induction rem with
  | zero =>
    intro i
    simp only [rowsMask, Nat.zero_testBit]
    constructor
    · intro h
      cases h
    · rintro ⟨k, h1, h2, -⟩
      omega
  | succ r ih =>
    intro i
    simp only [rowsMask]
    by_cases hb : 32 ≤ y_pos + i
    · rw [if_pos hb]
      simp only [Nat.zero_testBit]
      constructor
      · intro h
        cases h
      · rintro ⟨k, h1, h2, h3, -⟩
        omega
    · rw [if_neg hb, Nat.testBit_xor]
      by_cases hyrow : y2 = y_pos + i
      · subst hyrow
        have hcols := colsMask_testBit (msrc.get (iReg + i)) x_pos (y_pos + i) x2 hx2 8 0
          (by omega)
        have hrest : (rowsMask msrc x_pos y_pos 64 32 iReg (i + 1) r
            (0xF00 + (x2 + (y_pos + i) * 64) / 8)).testBit (7 - x2 % 8) = false := by
          rw [← Bool.not_eq_true, ih (i + 1)]
          rintro ⟨k, h1, h2, h3, h4, -⟩
          omega
        rw [hrest, Bool.xor_false, hcols]
        constructor
        · rintro ⟨j2, -, h2, h3, h4, h5⟩
          exact ⟨i, le_refl i, by omega, by omega, rfl, j2, by omega, h3, h4, h5⟩
        · rintro ⟨k, h1, h2, h3, h4, j2, h5, h6, h7, h8⟩
          have hk : k = i := by omega
          subst hk
          exact ⟨j2, by omega, by omega, h6, h7, h8⟩
      · have hcols : (colsMask (msrc.get (iReg + i)) x_pos (y_pos + i) 64 0 8
            (0xF00 + (x2 + y2 * 64) / 8)).testBit (7 - x2 % 8) = false := by
          rw [colsMask_eq_zero _ _ _ 8 0 _ (by omega)]
          exact Nat.zero_testBit _
        rw [hcols, Bool.false_xor, ih (i + 1)]
        constructor
        · rintro ⟨k, h1, h2, h3, h4, h5⟩
          exact ⟨k, by omega, by omega, h3, h4, h5⟩
        · rintro ⟨k, h1, h2, h3, h4, h5⟩
          by_cases hki : k = i
          · subst hki
            exact absurd h4 hyrow
          · exact ⟨k, by omega, by omega, h3, h4, h5⟩

theorem colsHit_iff (m : Memory) (sb x_pos y : Nat) :
    ∀ rem j, (colsHit m sb x_pos y 64 j rem = true ↔
      ∃ j2, j ≤ j2 ∧ j2 < j + rem ∧ x_pos + j2 < 64 ∧
        sb &&& (1 <<< (7 - j2)) ≠ 0 ∧ m.pixel (x_pos + j2) y = true) := by
  intro rem
  induction rem with
  | zero =>
    intro j
    simp only [colsHit]
    constructor
    · intro h
      cases h
    · rintro ⟨j2, h1, h2, -⟩
      omega
  | succ r ih =>
    intro j
    simp only [colsHit]
    by_cases hb : 64 ≤ x_pos + j
    · rw [if_pos hb]
      constructor
      · intro h
        cases h
      · rintro ⟨j2, h1, h2, h3, -⟩
        omega
    · rw [if_neg hb]
      by_cases hz : sb &&& (1 <<< (7 - j)) = 0
      · rw [if_pos hz, ih (j + 1)]
        constructor
        · rintro ⟨j2, h1, h2, h3, h4, h5⟩
          exact ⟨j2, by omega, by omega, h3, h4, h5⟩
        · rintro ⟨j2, h1, h2, h3, h4, h5⟩
          by_cases hjj : j2 = j
          · subst hjj
            exact absurd hz h4
          · exact ⟨j2, by omega, by omega, h3, h4, h5⟩
      · rw [if_neg hz, Bool.or_eq_true, ih (j + 1)]
        constructor
        · rintro (hp | ⟨j2, h1, h2, h3, h4, h5⟩)
          · exact ⟨j, le_refl j, by omega, by omega, hz, hp⟩
          · exact ⟨j2, by omega, by omega, h3, h4, h5⟩
        · rintro ⟨j2, h1, h2, h3, h4, h5⟩
          by_cases hjj : j2 = j
          · subst hjj
            exact Or.inl h5
          · exact Or.inr ⟨j2, by omega, by omega, h3, h4, h5⟩

theorem rowsHit_iff (msrc : Memory) (x_pos y_pos iReg : Nat) :
    ∀ rem i, (rowsHit msrc x_pos y_pos 64 32 iReg i rem = true ↔
      ∃ k, i ≤ k ∧ k < i + rem ∧ y_pos + k < 32 ∧
        ∃ j2, j2 < 8 ∧ x_pos + j2 < 64 ∧
          msrc.get (iReg + k) &&& (1 <<< (7 - j2)) ≠ 0 ∧
          msrc.pixel (x_pos + j2) (y_pos + k) = true) := by
  intro rem
  induction rem with
  | zero =>
    intro i
    simp only [rowsHit]
    constructor
    · intro h
      cases h
    · rintro ⟨k, h1, h2, -⟩
      omega
  | succ r ih =>
    intro i
    simp only [rowsHit]
    by_cases hb : 32 ≤ y_pos + i
    · rw [if_pos hb]
      constructor
      · intro h
        cases h
      · rintro ⟨k, h1, h2, h3, -⟩
        omega
    · rw [if_neg hb, Bool.or_eq_true, ih (i + 1),
        colsHit_iff msrc (msrc.get (iReg + i)) x_pos (y_pos + i) 8 0]
      constructor
      · rintro (⟨j2, -, h2, h3, h4, h5⟩ | ⟨k, h1, h2, h3, h4⟩)
        · exact ⟨i, le_refl i, by omega, by omega, j2, by omega, h3, h4, h5⟩
        · exact ⟨k, by omega, by omega, h3, h4⟩
      · rintro ⟨k, h1, h2, h3, j2, h4, h5, h6, h7⟩
        by_cases hki : k = i
        · subst hki
          exact Or.inl ⟨j2, by omega, by omega, h5, h6, h7⟩
        · exact Or.inr ⟨k, by omega, by omega, h3, j2, h4, h5, h6, h7⟩

/-- Unfolding of the `D x y n` arm of the dispatch. -/
theorem execute_Dxyn_def (sys : System) (x y n : Nat) :
    Instruction.execute ⟨0xD, x, y, n⟩ sys =
      (match drawRows (sys.registers.get x % 64) (sys.registers.get y % 32)
          sys.screen_width sys.screen_height sys.registers.i 0 n sys.memory 0 with
       | none => none
       | some (m2, vf) =>
         some { sys with memory := m2, registers := sys.registers.set_vF vf }) := rfl

/-- C7 (amended): drawing twice with the same coordinates and sprite (x, y
not the flag register, sprite rows outside the display sub-range) restores
every memory byte — the drawn pixels are toggled off — and, provided at
least one set sprite bit is actually drawn (not clipped) onto a pixel that
is initially unset, the second draw reports a collision: flag = 1. -/
theorem C7_draw_twice (sys : System) (x y n : Nat) (hx : x < 16) (hy : y < 16)
    (hx15 : x ≠ 15) (hy15 : y ≠ 15)
    (hsw : sys.screen_width = 64) (hsh : sys.screen_height = 32)
    (hdisj : ∀ k2, k2 < n →
      sys.registers.i + k2 < 0xF00 ∨ 0x1000 ≤ sys.registers.i + k2)
    (hdrawn : ∃ k j2, k < n ∧ sys.registers.get y % 32 + k < 32 ∧ j2 < 8 ∧
        sys.registers.get x % 64 + j2 < 64 ∧
        sys.memory.get (sys.registers.i + k) &&& (1 <<< (7 - j2)) ≠ 0 ∧
        sys.memory.pixel (sys.registers.get x % 64 + j2)
          (sys.registers.get y % 32 + k) = false) :
    ∃ s1 s2, Instruction.execute ⟨0xD, x, y, n⟩ sys = some s1 ∧
      Instruction.execute ⟨0xD, x, y, n⟩ s1 = some s2 ∧
      (∀ a, s2.memory.get a = sys.memory.get a) ∧
      s2.registers.get 15 = 1 := by
  obtain ⟨k, j2, hkn, hYk, hj8, hXj, hbit, hpf⟩ := hdrawn
  set X := sys.registers.get x % 64 with hXdef
  set Y := sys.registers.get y % 32 with hYdef
  have hdisj0 : ∀ k2, 0 ≤ k2 → k2 < 0 + n →
      sys.registers.i + k2 < 0xF00 ∨ 0x1000 ≤ sys.registers.i + k2 :=
    fun k2 _ h2 => hdisj k2 (by omega)
  obtain ⟨m1, he1, hc1⟩ := drawRows_char X Y sys.registers.i n 0 sys.memory 0 hdisj0
  set vf1 : Nat :=
    if rowsHit sys.memory X Y 64 32 sys.registers.i 0 n then 1 else 0 with hvf1
  have hexec1 : Instruction.execute ⟨0xD, x, y, n⟩ sys =
      some { sys with memory := m1, registers := sys.registers.set_vF vf1 } := by
    rw [execute_Dxyn_def, hsw, hsh, he1]
  have hspr2 : ∀ k2, 0 ≤ k2 → k2 < 0 + n →
      m1.get (sys.registers.i + k2) = sys.memory.get (sys.registers.i + k2) := by
    intro k2 _ h2
    rw [hc1, rowsMask_eq_zero sys.memory X Y sys.registers.i n 0 _
      (hdisj k2 (by omega)), Nat.xor_zero]
  obtain ⟨m2, he2, hc2⟩ := drawRows_char X Y sys.registers.i n 0 m1 0 hdisj0
  set vf2 : Nat :=
    if rowsHit m1 X Y 64 32 sys.registers.i 0 n then 1 else 0 with hvf2
  have hexec2 : Instruction.execute ⟨0xD, x, y, n⟩
      { sys with memory := m1, registers := sys.registers.set_vF vf1 } =
      some { sys with
        memory := m2,
        registers := (sys.registers.set_vF vf1).set_vF vf2 } := by
    rw [execute_Dxyn_def]
    show (match drawRows ((sys.registers.set_vF vf1).get x % 64)
        ((sys.registers.set_vF vf1).get y % 32) sys.screen_width sys.screen_height
        (sys.registers.set_vF vf1).i 0 n m1 0 with
      | none => none
      | some (m3, vf) =>
        some { sys with
          memory := m3,
          registers := (sys.registers.set_vF vf1).set_vF vf }) = _
    rw [Registers.get_set_vF_ne _ _ hx15, Registers.get_set_vF_ne _ _ hy15,
      Registers.set_vF_i, hsw, hsh, he2]
  have hmem : ∀ a, m2.get a = sys.memory.get a := by
    intro a
    rw [hc2 a, rowsMask_congr X Y 64 32 sys.registers.i n 0 m1 sys.memory a hspr2,
      hc1 a, Nat.xor_assoc, Nat.xor_self, Nat.xor_zero]
  have hpix2 : m1.pixel (X + j2) (Y + k) = true := by
    show (m1.get (0xF00 + ((X + j2) + (Y + k) * 64) / 8)).testBit
      (7 - (X + j2) % 8) = true
    rw [hc1, Nat.testBit_xor]
    have hR : (rowsMask sys.memory X Y 64 32 sys.registers.i 0 n
        (0xF00 + ((X + j2) + (Y + k) * 64) / 8)).testBit (7 - (X + j2) % 8) = true := by
      rw [rowsMask_testBit sys.memory X Y sys.registers.i (X + j2) (Y + k)
        (by omega) (by omega) n 0]
      exact ⟨k, by omega, by omega, by omega, rfl, j2, hj8, hXj, hbit, rfl⟩
    rw [hR]
    have hMp : (sys.memory.get (0xF00 + ((X + j2) + (Y + k) * 64) / 8)).testBit
        (7 - (X + j2) % 8) = false := hpf
    rw [hMp]
    rfl
  have hrh : rowsHit m1 X Y 64 32 sys.registers.i 0 n = true := by
    rw [rowsHit_iff m1 X Y sys.registers.i n 0]
    refine ⟨k, by omega, by omega, hYk, j2, hj8, hXj, ?_, hpix2⟩
    rw [hspr2 k (by omega) (by omega)]
    exact hbit
  refine ⟨_, _, hexec1, hexec2, ?_, ?_⟩
  · intro a
    exact hmem a
  · show ((sys.registers.set_vF vf1).set_vF vf2).get 15 = 1
    rw [Registers.get_set_vF_self, hvf2, hrh]
    rfl

theorem C7_draw_twice_witness :
    ((0x300 : Nat) + 0 < 0xF00 ∧ spriteSystem.memory.pixel 0 0 = false ∧
      spriteSystem.memory.get 0x300 ≠ 0) ∧
    ((Instruction.execute ⟨0xD, 0, 1, 1⟩ spriteSystem).bind
        (Instruction.execute ⟨0xD, 0, 1, 1⟩)).map
      (fun s => (s.registers.get 15, s.memory.get 0xF00)) = some (1, 0) := by
  refine ⟨⟨by decide, by decide, by decide⟩, ?_⟩
  obtain ⟨s1, s2, he1, he2, hmem, hflag⟩ :=
    C7_draw_twice spriteSystem 0 1 1 (by decide) (by decide) (by decide) (by decide)
      rfl rfl
      (by
        intro k2 hk2
        left
        show 0x300 + k2 < 0xF00
        omega)
      ⟨0, 0, by decide, by decide, by decide, by decide, by decide, by decide⟩
  rw [he1]
  show (Instruction.execute ⟨0xD, 0, 1, 1⟩ s1).map _ = _
  rw [he2, Option.map_some']
  rw [hflag, hmem 0xF00]
  rfl

/-- C7 counterexample: the claim as stated fails.  The sprite byte 0x80 at
0x300 is non-zero and stored outside the display sub-range, the draw is
executed twice with identical coordinates — but the display byte it lands on
is initially fully set, so the first draw erases the pixel and the second
redraws it: the second draw reports NO collision (flag = 0, not 1). -/
theorem C7_draw_twice_counterexample :
    spriteSystemSet.memory.get 0x300 ≠ 0 ∧
    ((Instruction.execute ⟨0xD, 0, 1, 1⟩ spriteSystemSet).bind
        (Instruction.execute ⟨0xD, 0, 1, 1⟩)).map
      (fun s => (s.registers.get 15, s.memory.get 0xF00)) = some (0, 0x80) ∧
    (0 : Nat) ≠ 1 := by
  refine ⟨by decide, by decide, by decide⟩

end Chip8
